import Mathlib

/-!
Shallow embedding of the chunk-decoding pipeline of `src/ChunkDecoder.js`:
the block-state mapping table, chunk/subchunk/layer decoding over a byte
buffer, the coordinate codec, the chunk cache and the point query
`getBlockAt`.

Modelling conventions:
* a byte buffer is a `List Nat`; each read reduces the byte mod 256,
  matching `Buffer.readUInt8` / `Buffer.readInt8` (the latter reinterprets
  the byte as a signed two's-complement value);
* JavaScript integral number arithmetic is modelled with `Int`:
  `Math.floor(a / b)` is `Int.fdiv` (floor division) and the JavaScript
  remainder `a % b` (sign of the dividend) is `Int.tmod`;
* the decoder object's mutable fields (`blockMappings`, `chunkCache`)
  become a `DecoderState` that is threaded explicitly;
* thrown errors become `Except` / explicit error results; `decodeChunk`
  wraps any error with the chunk coordinates, as the JavaScript `catch`
  block does;
* the bounded `for` loops (at most `subChunkCount`, `layerCount`, 4096
  iterations) are structural recursions on an explicit iteration-count
  fuel equal to the remaining number of loop iterations.
-/

namespace ChunkDecoder

/-- A decoded block, as built by `createBlockData` and by the air sentinel
in `getBlockAt` (JavaScript uses one object shape for both; the fields
that hold array indices / coordinates are JavaScript numbers, modelled as
`Int`). -/
structure Block where
  index : Int
  id : Nat
  name : String
  x : Int
  y : Int
  z : Int
  deriving DecidableEq

/-- One block-storage layer of a subchunk. -/
structure Layer where
  index : Nat
  blocks : List Block
  deriving DecidableEq

/-- A decoded 16×16×16 subchunk section. -/
structure SubChunk where
  y : Int
  version : Int
  layers : List Layer
  deriving DecidableEq

/-- A decoded chunk column. -/
structure Chunk where
  x : Int
  z : Int
  subChunks : List SubChunk
  deriving DecidableEq

/-- The two fatal error kinds raised while decoding a chunk payload. -/
inductive DecodeErr where
  | invalidPayload
  | bufferOverflow
  deriving DecidableEq

/-- A fatal decode error as rethrown by `decodeChunk`'s catch block:
the underlying error together with the chunk coordinates it was wrapped
with (`Failed to decode chunk at x,z: ...`). -/
structure ChunkError where
  chunkX : Int
  chunkZ : Int
  err : DecodeErr
  deriving DecidableEq

/-- The mutable state of a `ChunkDecoder` instance: the runtime-id →
block-name table and the per-(x,z) chunk cache.  The JavaScript cache key
is the string `x + "," + z`, which is in bijection with the pair
`(x, z)`, so the cache is modelled as a map keyed by the pair. -/
structure DecoderState where
  blockMappings : Nat → Option String
  chunkCache : Int × Int → Option Chunk

/-- The state built by the `ChunkDecoder` constructor: empty mapping
table, empty cache. -/
def initState : DecoderState := ⟨fun _ => none, fun _ => none⟩

/-- One entry of the `itemstates` array handed to `setBlockMappings`;
`runtime_id` is `none` when the field is `undefined`. -/
structure ItemState where
  name : String
  runtime_id : Option Nat
  deriving DecidableEq

/-- The body of the `forEach` in `setBlockMappings`: record the mapping
when `runtime_id` is present, otherwise leave the table unchanged. -/
def applyItemState (m : Nat → Option String) (s : ItemState) : Nat → Option String :=
  match s.runtime_id with
  | some rid => fun k => if k = rid then some s.name else m k
  | none => m

/-- `setBlockMappings(itemstates)`: fold the entries over the table in
order, so a later entry for the same runtime id overwrites an earlier
one. -/
def setBlockMappings (st : DecoderState) (itemstates : List ItemState) : DecoderState :=
  { st with blockMappings := itemstates.foldl applyItemState st.blockMappings }

/-- `payload.readUInt8(off)`: the byte at `off` as an unsigned value. -/
def readUInt8 (p : List Nat) (off : Nat) : Nat :=
  p.getD off 0 % 256

/-- `payload.readInt8(off)`: the byte at `off` reinterpreted as a signed
two's-complement value in [-128, 127]. -/
def readInt8 (p : List Nat) (off : Nat) : Int :=
  let b := p.getD off 0 % 256
  if b < 128 then (b : Int) else (b : Int) - 256

/-- `this.blockMappings[blockId] || unknown_block_id`: the JavaScript
`||` falls through to the placeholder both when the id is unmapped and
when the mapped name is the empty string (which is falsy). -/
def resolveName (m : Nat → Option String) (blockId : Nat) : String :=
  match m blockId with
  | some n => if n = "" then "unknown_block_" ++ toString blockId else n
  | none => "unknown_block_" ++ toString blockId

/-- `createBlockData(blockId, index)`: resolve the name and derive the
local coordinates from the linear index. -/
def createBlockData (m : Nat → Option String) (blockId : Nat) (index : Nat) : Block :=
  { index := (index : Int)
    id := blockId
    name := resolveName m blockId
    x := ((index % 16 : Nat) : Int)
    y := ((index / 256 : Nat) : Int)
    z := ((index % 256 / 16 : Nat) : Int) }

/-- The inner block loop of `decodeSubChunk`:
`for (i; i < 4096 && offset < payload.length - 1; i++)`, reading one
block id per iteration and keeping only the non-air ones.  `fuel` is the
number of remaining iterations (`4096 - i`).  Returns the accumulated
blocks (in read order) and the advanced offset. -/
def readLayerBlocks (m : Nat → Option String) (p : List Nat) :
    Nat → Nat → Nat → List Block × Nat
  | _, off, 0 => ([], off)
  | i, off, fuel + 1 =>
    if off < p.length - 1 then
      let blockId := readUInt8 p off
      let rest := readLayerBlocks m p (i + 1) (off + 1) fuel
      if blockId ≠ 0 then (createBlockData m blockId i :: rest.1, rest.2)
      else rest
    else ([], off)

/-- The layer loop of `decodeSubChunk`:
`for (layer; layer < layerCount && offset < payload.length - 1; layer++)`,
each iteration reading up to 4096 block ids and emitting a layer only
when it collected at least one block.  `fuel` is the number of remaining
iterations (`layerCount - layer`). -/
def readLayers (m : Nat → Option String) (p : List Nat) :
    Nat → Nat → Nat → List Layer × Nat
  | _, off, 0 => ([], off)
  | layer, off, fuel + 1 =>
    if off < p.length - 1 then
      let rb := readLayerBlocks m p 0 off 4096
      let rest := readLayers m p (layer + 1) rb.2 fuel
      if rb.1.length > 0 then ({ index := layer, blocks := rb.1 } :: rest.1, rest.2)
      else rest
    else ([], off)

/-- `decodeSubChunk(payload, offset, yLevel)`: guard that a 2-byte header
fits below `payload.length - 1`, read `version` and `layerCount`, then
run the layer loop.  Returns the subchunk and the new offset. -/
def decodeSubChunk (m : Nat → Option String) (p : List Nat) (off : Nat) (yLevel : Nat) :
    Except DecodeErr (SubChunk × Nat) :=
  if p.length - 1 ≤ off then
    .error .bufferOverflow
  else
    let version := readInt8 p off
    let layerCount := readInt8 p (off + 1)
    let rl := readLayers m p 0 (off + 2) layerCount.toNat
    .ok ({ y := (yLevel : Int), version := version, layers := rl.1 }, rl.2)

/-- The subchunk loop of `decodeChunk`:
`for (y = 0; y < subChunkCount && offset < payload.length - 1; y++)`,
each iteration decoding one subchunk at the current offset.  `fuel` is
the number of remaining iterations (`subChunkCount - y`). -/
def decodeSubChunks (m : Nat → Option String) (p : List Nat) :
    Nat → Nat → Nat → Except DecodeErr (List SubChunk × Nat)
  | _, off, 0 => .ok ([], off)
  | y, off, fuel + 1 =>
    if off < p.length - 1 then
      match decodeSubChunk m p off y with
      | .error e => .error e
      | .ok (sc, off2) =>
        match decodeSubChunks m p (y + 1) off2 fuel with
        | .error e => .error e
        | .ok (rest, off3) => .ok (sc :: rest, off3)
    else .ok ([], off)

/-- `cacheChunk(chunk)`: insert/overwrite the cache entry at key
`(chunk.x, chunk.z)`. -/
def cacheChunk (st : DecoderState) (c : Chunk) : DecoderState :=
  { st with chunkCache := fun k => if k = (c.x, c.z) then some c else st.chunkCache k }

/-- `decodeChunk(payload, chunkX, chunkZ)`: validate the 2-byte chunk
header, read `subChunkCount` and `storageVersion`, run the subchunk loop
from offset 2, cache the resulting chunk and return it.  A `none`
payload models a null/undefined buffer (`!payload`).  Errors are wrapped
with the chunk coordinates; the state is returned unchanged on error
(the JavaScript throw happens before `cacheChunk` runs). -/
def decodeChunk (st : DecoderState) (payload : Option (List Nat)) (chunkX chunkZ : Int) :
    Except ChunkError Chunk × DecoderState :=
  match payload with
  | none => (.error ⟨chunkX, chunkZ, .invalidPayload⟩, st)
  | some p =>
    if p.length < 2 then (.error ⟨chunkX, chunkZ, .invalidPayload⟩, st)
    else
      let subChunkCount := readInt8 p 0
      let _storageVersion := readInt8 p 1
      match decodeSubChunks st.blockMappings p 0 2 subChunkCount.toNat with
      | .error e => (.error ⟨chunkX, chunkZ, e⟩, st)
      | .ok (scs, _) =>
        let chunk : Chunk := { x := chunkX, z := chunkZ, subChunks := scs }
        (.ok chunk, cacheChunk st chunk)

/-- `getBlockAt(chunk, x, y, z)`: validate the local x,z range, locate
the subchunk at slot `Math.floor(y / 16)`, then scan its layers for the
block at index `localY * 256 + z * 16 + x` with `localY = y % 16`
(JavaScript remainder).  Returns `.error` for the thrown range check,
`.ok none` for the JavaScript `null` (no subchunk), and `.ok (some b)`
otherwise, synthesizing the air block when no stored block matches. -/
def getBlockAt (chunk : Chunk) (x y z : Int) : Except String (Option Block) :=
  if x < 0 ∨ 15 < x ∨ z < 0 ∨ 15 < z then
    .error "Local coordinates must be between 0-15"
  else
    let subChunkIndex := Int.fdiv y 16
    let localY := Int.tmod y 16
    match chunk.subChunks.find? (fun sc => sc.y == subChunkIndex) with
    | none => .ok none
    | some sc =>
      let blockIndex := localY * 256 + z * 16 + x
      match sc.layers.findSome? (fun l => l.blocks.find? (fun b => b.index == blockIndex)) with
      | some b => .ok (some b)
      | none => .ok (some ⟨blockIndex, 0, "air", x, y, z⟩)

/-- `getLastDecodedChunk(x, z)`: cache lookup by coordinates. -/
def getLastDecodedChunk (st : DecoderState) (x z : Int) : Option Chunk :=
  st.chunkCache (x, z)

/-! ## Helper lemmas -/

/-- The table produced by `setBlockMappings` maps `rid` to the name of the
last entry carrying `runtime_id = rid`, and keeps the old binding when no
entry carries it. -/
theorem foldl_applyItemState_lookup (m : Nat → Option String) (es : List ItemState) (rid : Nat) :
    es.foldl applyItemState m rid =
      match es.reverse.find? (fun s => s.runtime_id == some rid) with
      | some s => some s.name
      | none => m rid := by
  induction es generalizing m with
  | nil => rfl
  | cons s es ih =>
    rw [List.foldl_cons, ih, List.reverse_cons, List.find?_append]
    cases hf : es.reverse.find? (fun s => s.runtime_id == some rid) with
    | some t => simp
    | none =>
      cases hr : s.runtime_id with
      | none => simp [List.find?, hr, applyItemState]
      | some r =>
        by_cases hrr : r = rid
        · subst hrr
          simp [List.find?, hr, applyItemState]
        · have hb : (r == rid) = false := by simp [hrr]
          simp [List.find?, hr, applyItemState, hb, Ne.symm hrr]

/-- JavaScript remainder bounds: for a nonnegative dividend `tmod`
agrees with the mathematical remainder and lies in `[0, 16)`. -/
theorem tmod16_of_nonneg (y : Int) (hy : 0 ≤ y) :
    Int.tmod y 16 = y % 16 ∧ 0 ≤ Int.tmod y 16 ∧ Int.tmod y 16 < 16 :=
  ⟨Int.tmod_eq_emod hy (by norm_num), Int.tmod_nonneg 16 hy,
    Int.tmod_lt_of_pos y (by norm_num)⟩

/-- JavaScript remainder bounds: for a negative dividend `tmod` is
nonpositive and greater than `-16`. -/
theorem tmod16_of_neg (y : Int) (hy : y < 0) :
    Int.tmod y 16 ≤ 0 ∧ -16 < Int.tmod y 16 := by
  match y, hy with
  | Int.negSucc n, _ =>
    have h : Int.tmod (Int.negSucc n) 16 = -(((n + 1) % 16 : Nat) : Int) := rfl
    rw [h]
    omega

/-! ## Claims -/

/-- Claim C3: for every linear index `i` in `[0, 4095]`, the local
coordinates derived in `createBlockData` (`x = i mod 16`,
`y = floor(i / 256)`, `z = floor((i mod 256) / 16)`) recombine through
the `getBlockAt` formula `localY * 256 + z * 16 + x` to `i` again, and
conversely the coordinates derived from `y*256 + z*16 + x` are `x`, `y`,
`z`: the two transforms are exact inverses on this domain. -/
theorem createBlockData_index_roundtrip (m : Nat → Option String) (bid i : Nat)
    (hi : i < 4096) :
    ((createBlockData m bid i).y * 256 + (createBlockData m bid i).z * 16 +
        (createBlockData m bid i).x = (createBlockData m bid i).index ∧
      (createBlockData m bid i).index = (i : Int)) ∧
    (∀ x y z : Nat, x < 16 → y < 16 → z < 16 →
      (createBlockData m bid (y * 256 + z * 16 + x)).x = (x : Int) ∧
      (createBlockData m bid (y * 256 + z * 16 + x)).y = (y : Int) ∧
      (createBlockData m bid (y * 256 + z * 16 + x)).z = (z : Int)) := by
  refine ⟨⟨?_, ?_⟩, fun x y z hx hy hz => ⟨?_, ?_, ?_⟩⟩ <;>
    simp only [createBlockData] <;> omega

/-- Witness for C3 at `i = 561` and `(x, y, z) = (1, 2, 3)`. -/
theorem createBlockData_index_roundtrip_witness :
    ((createBlockData (fun _ => none) 2 561).y * 256 +
        (createBlockData (fun _ => none) 2 561).z * 16 +
        (createBlockData (fun _ => none) 2 561).x = (createBlockData (fun _ => none) 2 561).index) ∧
    (createBlockData (fun _ => none) 2 (2 * 256 + 3 * 16 + 1)).x = (1 : Int) ∧
    (createBlockData (fun _ => none) 2 (2 * 256 + 3 * 16 + 1)).y = (2 : Int) ∧
    (createBlockData (fun _ => none) 2 (2 * 256 + 3 * 16 + 1)).z = (3 : Int) := by
  have h := createBlockData_index_roundtrip (fun _ => none) 2 561 (by norm_num)
  have h2 := h.2 1 2 3 (by norm_num) (by norm_num) (by norm_num)
  exact ⟨h.1.1, h2.1, h2.2.1, h2.2.2⟩

/-- Claim C4: a missing payload, or a payload shorter than the 2-byte
chunk header, makes `decodeChunk` fail with the invalid-payload error
wrapped with the chunk coordinates, and leaves the decoder state — in
particular the cache entry for `(chunkX, chunkZ)` — unchanged. -/
theorem decodeChunk_invalidPayload (st : DecoderState) (payload : Option (List Nat))
    (cx cz : Int) (h : payload = none ∨ ∃ p, payload = some p ∧ p.length < 2) :
    decodeChunk st payload cx cz = (.error ⟨cx, cz, .invalidPayload⟩, st) ∧
    (decodeChunk st payload cx cz).2.chunkCache (cx, cz) = st.chunkCache (cx, cz) := by
  rcases h with h | ⟨p, hp, hlen⟩
  · subst h; exact ⟨rfl, rfl⟩
  · subst hp
    have : decodeChunk st (some p) cx cz = (.error ⟨cx, cz, .invalidPayload⟩, st) := by
      simp [decodeChunk, hlen]
    exact ⟨this, by rw [this]⟩

/-- Witness for C4 at the 1-byte payload `[5]` and coordinates `(1, 2)`. -/
theorem decodeChunk_invalidPayload_witness :
    decodeChunk initState (some [5]) 1 2 = (.error ⟨1, 2, .invalidPayload⟩, initState) ∧
    (decodeChunk initState (some [5]) 1 2).2.chunkCache (1, 2) = initState.chunkCache (1, 2) :=
  decodeChunk_invalidPayload initState (some [5]) 1 2 (Or.inr ⟨[5], rfl, by norm_num⟩)

/-- Claim C5, counterexample: at `absoluteY = -1` the claim fails.  The
JavaScript remainder `-1 % 16` is `-1`, not `15`, so the local Y used to
form the block index is negative and the synthesized air block carries
block index `-1 * 256 + 0 + 0 = -256`, which is negative — the claimed
`localY ∈ [0, 15]` (which would force a block index of `15 * 256 = 3840`
here) does not hold for negative `absoluteY`. -/
theorem getBlockAt_negY_counterexample :
    getBlockAt ⟨0, 0, [⟨-1, 0, []⟩]⟩ 0 (-1) 0 = .ok (some ⟨-256, 0, "air", 0, -1, 0⟩) ∧
    (-256 : Int) ≠ 15 * 256 ∧ ¬ (0 ≤ (-256 : Int)) := by
  refine ⟨rfl, by norm_num, by norm_num⟩

/-- Claim C5, amended: for every integer `absoluteY`, `getBlockAt`
searches the subchunk slot `floor(absoluteY / 16)` (`Int.fdiv`, which
equals the Euclidean quotient since the divisor is positive, for all
integers — including negative ones); the local Y used to form the block
index is the JavaScript remainder `Int.tmod absoluteY 16`, which equals
`absoluteY mod 16` and lies in `[0, 15]` for nonnegative `absoluteY`,
but lies in `(-16, 0]` for negative `absoluteY`. -/
theorem getBlockAt_slot_and_localY (x y z version : Int)
    (hx0 : 0 ≤ x) (hx : x ≤ 15) (hz0 : 0 ≤ z) (hz : z ≤ 15) :
    getBlockAt ⟨0, 0, [⟨Int.fdiv y 16, version, []⟩]⟩ x y z =
      .ok (some ⟨Int.tmod y 16 * 256 + z * 16 + x, 0, "air", x, y, z⟩) ∧
    Int.fdiv y 16 = y / 16 ∧
    (0 ≤ y → Int.tmod y 16 = y % 16 ∧ 0 ≤ Int.tmod y 16 ∧ Int.tmod y 16 < 16) ∧
    (y < 0 → Int.tmod y 16 ≤ 0 ∧ -16 < Int.tmod y 16) := by
  refine ⟨?_, Int.fdiv_eq_ediv y (by norm_num), tmod16_of_nonneg y, tmod16_of_neg y⟩
  simp only [getBlockAt]
  rw [if_neg (by omega)]
  simp [List.find?]

/-- Witness for C5's amended theorem at `y = -17`: the searched slot is
`floor(-17 / 16) = -2` and the air block index is
`(-17 % 16) * 256 + 0 + 0 = -256`. -/
theorem getBlockAt_slot_and_localY_witness :
    getBlockAt ⟨0, 0, [⟨-2, 9, []⟩]⟩ 0 (-17) 0 = .ok (some ⟨-256, 0, "air", 0, -17, 0⟩) ∧
    Int.tmod (-17) 16 ≤ 0 ∧ -16 < Int.tmod (-17) 16 := by
  have h := getBlockAt_slot_and_localY 0 (-17) 0 9
    (by norm_num) (by norm_num) (by norm_num) (by norm_num)
  refine ⟨?_, h.2.2.2 (by norm_num)⟩
  have e1 : Int.fdiv (-17) 16 = -2 := by decide
  have e2 : Int.tmod (-17) 16 * 256 + 0 * 16 + 0 = (-256 : Int) := by decide
  have h1 := h.1
  rw [e1, e2] at h1
  exact h1

/-- Claim C1, counterexample: on a chunk with no subchunks (as decoded
from the payload `[0x00, 0x08]`), `getBlockAt` returns the JavaScript
`null` (modelled `.ok none`), not the implicit air sentinel block the
claim describes. -/
theorem getBlockAt_no_subChunk_counterexample :
    getBlockAt ⟨0, 0, []⟩ 0 0 0 = .ok none ∧
    getBlockAt ⟨0, 0, []⟩ 0 0 0 ≠ .ok (some ⟨0, 0, "air", 0, 0, 0⟩) := by
  have h : getBlockAt ⟨0, 0, []⟩ 0 0 0 = .ok none := rfl
  refine ⟨h, ?_⟩
  rw [h]
  simp

/-- Claim C1, amended: when `chunk.subChunks` contains no subchunk whose
`y` equals `floor(y / 16)`, `getBlockAt` returns `null` (`.ok none`),
not the air sentinel; the air sentinel
`{ linearIndex, runtimeId 0, name "air", x, y, z }` is synthesized only
when a matching subchunk exists but none of its layers stores a block at
the computed block index. -/
theorem getBlockAt_missing_subChunk_null (chunk : Chunk) (x y z : Int)
    (hx0 : 0 ≤ x) (hx : x ≤ 15) (hz0 : 0 ≤ z) (hz : z ≤ 15) :
    ((∀ sc ∈ chunk.subChunks, sc.y ≠ Int.fdiv y 16) → getBlockAt chunk x y z = .ok none) ∧
    (∀ sc, chunk.subChunks.find? (fun s => s.y == Int.fdiv y 16) = some sc →
      (∀ l ∈ sc.layers, ∀ b ∈ l.blocks, b.index ≠ Int.tmod y 16 * 256 + z * 16 + x) →
      getBlockAt chunk x y z =
        .ok (some ⟨Int.tmod y 16 * 256 + z * 16 + x, 0, "air", x, y, z⟩)) := by
  constructor
  · intro hnone
    have hfind : chunk.subChunks.find? (fun s => s.y == Int.fdiv y 16) = none := by
      rw [List.find?_eq_none]
      intro sc hsc
      simpa using hnone sc hsc
    simp only [getBlockAt]
    rw [if_neg (by omega)]
    simp only [hfind]
  · intro sc hfind hno
    have hlayers : sc.layers.findSome?
        (fun l => l.blocks.find? (fun b => b.index == Int.tmod y 16 * 256 + z * 16 + x)) =
          none := by
      rw [List.findSome?_eq_none_iff]
      intro l hl
      rw [List.find?_eq_none]
      intro b hb
      simpa using hno l hl b hb
    simp only [getBlockAt]
    rw [if_neg (by omega)]
    simp only [hfind, hlayers]

/-- Witness for C1's amended theorem: the subchunk at slot 0 exists but
is empty, so the query at `(1, 2, 3)` yields the synthesized air block
with index `2 * 256 + 3 * 16 + 1 = 561`. -/
theorem getBlockAt_missing_subChunk_null_witness :
    getBlockAt ⟨0, 0, [⟨0, 3, []⟩]⟩ 1 2 3 = .ok (some ⟨561, 0, "air", 1, 2, 3⟩) := by
  have h := (getBlockAt_missing_subChunk_null ⟨0, 0, [⟨0, 3, []⟩]⟩ 1 2 3
      (by norm_num) (by norm_num) (by norm_num) (by norm_num)).2
    ⟨0, 3, []⟩ (by decide) (by simp)
  have e : Int.tmod 2 16 * 256 + 3 * 16 + 1 = (561 : Int) := by decide
  rw [e] at h
  exact h

/-- Claim C6, counterexample: an entry mapping runtime id 2 to the empty
string is recorded in the table, yet block creation resolves id 2 to the
placeholder, because the JavaScript `||` treats the empty string as
falsy — so "returns table[runtimeId] if present" fails as stated. -/
theorem setBlockMappings_empty_name_counterexample :
    (setBlockMappings initState [⟨"", some 2⟩]).blockMappings 2 = some "" ∧
    (createBlockData (setBlockMappings initState [⟨"", some 2⟩]).blockMappings 2 0).name =
      "unknown_block_2" ∧
    "unknown_block_2" ≠ "" := by
  refine ⟨rfl, rfl, by decide⟩

/-- Claim C6, amended: `setBlockMappings` records exactly the entries
whose `runtime_id` is present, later entries overwriting earlier ones
for the same id, and silently skips entries without a `runtime_id`
(the table maps `rid` to the name of the last entry carrying it);
name resolution during block creation returns `table[runtimeId]` when it
is present and non-empty, and the placeholder `"unknown_block_" + id`
when the id is absent — or when the recorded name is the empty string,
which the JavaScript `||` treats as falsy. -/
theorem setBlockMappings_resolution (st : DecoderState) (es : List ItemState) (rid i : Nat) :
    ((setBlockMappings st es).blockMappings rid =
        match es.reverse.find? (fun s => s.runtime_id == some rid) with
        | some s => some s.name
        | none => st.blockMappings rid) ∧
    (∀ n, (setBlockMappings st es).blockMappings rid = some n → n ≠ "" →
        (createBlockData (setBlockMappings st es).blockMappings rid i).name = n) ∧
    ((setBlockMappings st es).blockMappings rid = none →
        (createBlockData (setBlockMappings st es).blockMappings rid i).name =
          "unknown_block_" ++ toString rid) ∧
    ((setBlockMappings st es).blockMappings rid = some "" →
        (createBlockData (setBlockMappings st es).blockMappings rid i).name =
          "unknown_block_" ++ toString rid) := by
  refine ⟨foldl_applyItemState_lookup st.blockMappings es rid, ?_, ?_, ?_⟩
  · intro n hn hne
    simp [createBlockData, resolveName, hn, hne]
  · intro hn
    simp [createBlockData, resolveName, hn]
  · intro hn
    simp [createBlockData, resolveName, hn]

/-- Witness for C6's amended theorem: two entries for runtime id 2 — the
second ("minecraft:stone") overwrites the first, an id-less entry is
skipped, and block creation resolves id 2 to the recorded name. -/
theorem setBlockMappings_resolution_witness :
    (createBlockData
      (setBlockMappings initState
        [⟨"a", some 2⟩, ⟨"minecraft:stone", some 2⟩, ⟨"b", none⟩]).blockMappings
      2 0).name = "minecraft:stone" :=
  (setBlockMappings_resolution initState
      [⟨"a", some 2⟩, ⟨"minecraft:stone", some 2⟩, ⟨"b", none⟩] 2 0).2.1
    "minecraft:stone" rfl (by decide)

/-- The subchunk loop of `decodeChunk` never fails: each call to
`decodeSubChunk` is guarded by the very condition the latter's header
precondition checks, so the loop stops instead of raising, and it
produces at most `fuel` subchunks. -/
theorem decodeSubChunks_isOk (m : Nat → Option String) (p : List Nat) :
    ∀ fuel y off, ∃ scs off2,
      decodeSubChunks m p y off fuel = .ok (scs, off2) ∧ scs.length ≤ fuel := by
  intro fuel
  induction fuel with
  | zero => exact fun y off => ⟨[], off, rfl, by simp⟩
  | succ fuel ih =>
    intro y off
    by_cases h : off < p.length - 1
    · obtain ⟨scs, off2, heq, hle⟩ :=
        ih (y + 1) (readLayers m p 0 (off + 2) (readInt8 p (off + 1)).toNat).2
      refine ⟨⟨(y : Int), readInt8 p off,
        (readLayers m p 0 (off + 2) (readInt8 p (off + 1)).toNat).1⟩ :: scs, off2, ?_, ?_⟩
      · simp only [decodeSubChunks, if_pos h, decodeSubChunk,
          if_neg (by omega : ¬ p.length - 1 ≤ off)]
        rw [heq]
      · simpa using hle
    · exact ⟨[], off, by simp [decodeSubChunks, h], by simp⟩

/-- Claim C2: for every payload of length at least 2, `decodeChunk`
succeeds and returns (and caches) a chunk whose subchunk list holds at
most the declared `subChunkCount` entries — the loop stops at the guard
instead of failing when the buffer cannot supply all declared subchunks;
and whenever the 2-byte subchunk-header precondition
(`offset < payload.length - 1`) is violated, `decodeSubChunk` terminates
with the buffer-overflow error rather than returning a partial
subchunk. -/
theorem decodeChunk_partial_and_overflow (st : DecoderState) (p : List Nat) (cx cz : Int)
    (off y : Nat) (hlen : 2 ≤ p.length) :
    (∃ c, decodeChunk st (some p) cx cz = (.ok c, cacheChunk st c) ∧
      c.x = cx ∧ c.z = cz ∧ c.subChunks.length ≤ (readInt8 p 0).toNat) ∧
    (p.length - 1 ≤ off → decodeSubChunk st.blockMappings p off y = .error .bufferOverflow) := by
  constructor
  · obtain ⟨scs, off2, heq, hle⟩ :=
      decodeSubChunks_isOk st.blockMappings p (readInt8 p 0).toNat 0 2
    refine ⟨⟨cx, cz, scs⟩, ?_, rfl, rfl, hle⟩
    simp only [decodeChunk]
    rw [if_neg (by omega)]
    simp only [heq]
  · intro h
    simp only [decodeSubChunk, if_pos h]

/-- Witness for C2: the payload `[5, 0, 1, 1]` declares 5 subchunks but
supplies only one (with no layers); decoding returns that partial chunk,
while calling `decodeSubChunk` directly at offset 3 (which violates the
header precondition, since `length - 1 = 3`) raises the buffer-overflow
error. -/
theorem decodeChunk_partial_and_overflow_witness :
    decodeChunk initState (some [5, 0, 1, 1]) 0 0 =
      (.ok ⟨0, 0, [⟨0, 1, []⟩]⟩, cacheChunk initState ⟨0, 0, [⟨0, 1, []⟩]⟩) ∧
    decodeSubChunk initState.blockMappings [5, 0, 1, 1] 3 0 = .error .bufferOverflow := by
  have h := decodeChunk_partial_and_overflow initState [5, 0, 1, 1] 0 0 3 0 (by norm_num)
  exact ⟨rfl, h.2 (by norm_num)⟩

/-- Every block accumulated by the block loop starting at linear index
`i` has index at least `i` and a non-zero id, and the accumulated list
is strictly increasing in index. -/
theorem readLayerBlocks_blocks (m : Nat → Option String) (p : List Nat) :
    ∀ fuel i off,
      (∀ b ∈ (readLayerBlocks m p i off fuel).1, (i : Int) ≤ b.index ∧ b.id ≠ 0) ∧
      (readLayerBlocks m p i off fuel).1.Pairwise (fun a b => a.index < b.index) := by
  intro fuel
  induction fuel with
  | zero => intro i off; simp [readLayerBlocks]
  | succ fuel ih =>
    intro i off
    obtain ⟨ihmem, ihpw⟩ := ih (i + 1) (off + 1)
    by_cases hoff : off < p.length - 1
    · by_cases hbid : readUInt8 p off = 0
      · simp only [readLayerBlocks, if_pos hoff, if_neg (not_not_intro hbid)]
        exact ⟨fun b hb => ⟨by have := (ihmem b hb).1; omega, (ihmem b hb).2⟩, ihpw⟩
      · simp only [readLayerBlocks, if_pos hoff, if_pos hbid]
        constructor
        · intro b hb
          rcases List.mem_cons.mp hb with rfl | hb
          · exact ⟨by simp [createBlockData], hbid⟩
          · exact ⟨by have := (ihmem b hb).1; omega, (ihmem b hb).2⟩
        · refine List.Pairwise.cons (fun b hb => ?_) ihpw
          have := (ihmem b hb).1
          simp only [createBlockData]
          omega
    · simp [readLayerBlocks, if_neg hoff]

/-- Every layer emitted by the layer loop is non-empty, strictly
increasing in block index, and stores only non-zero block ids. -/
theorem readLayers_layers (m : Nat → Option String) (p : List Nat) :
    ∀ fuel layer off, ∀ l ∈ (readLayers m p layer off fuel).1,
      l.blocks ≠ [] ∧ l.blocks.Pairwise (fun a b => a.index < b.index) ∧
        ∀ b ∈ l.blocks, b.id ≠ 0 := by
  intro fuel
  induction fuel with
  | zero => intro layer off; simp [readLayers]
  | succ fuel ih =>
    intro layer off
    by_cases hoff : off < p.length - 1
    · by_cases hne : (readLayerBlocks m p 0 off 4096).1.length > 0
      · simp only [readLayers, if_pos hoff, if_pos hne]
        intro l hl
        rcases List.mem_cons.mp hl with rfl | hl
        · refine ⟨?_, (readLayerBlocks_blocks m p 4096 0 off).2,
            fun b hb => ((readLayerBlocks_blocks m p 4096 0 off).1 b hb).2⟩
          intro hnil
          have hblocks : (readLayerBlocks m p 0 off 4096).1 = [] := hnil
          rw [hblocks] at hne
          simp at hne
        · exact ih _ _ l hl
      · simp only [readLayers, if_pos hoff, if_neg hne]
        exact ih _ _
    · simp [readLayers, if_neg hoff]

/-- Claim C7: every layer of a subchunk produced by `decodeSubChunk` is
non-empty, its blocks are in strictly ascending linear-index order (so
in particular no index repeats), and every stored block has a non-zero
runtime id — air (id 0) is never materialized. -/
theorem decodeSubChunk_layer_invariants (m : Nat → Option String) (p : List Nat)
    (off yLevel : Nat) (sc : SubChunk) (off2 : Nat)
    (h : decodeSubChunk m p off yLevel = .ok (sc, off2)) :
    ∀ l ∈ sc.layers, l.blocks ≠ [] ∧ l.blocks.Pairwise (fun a b => a.index < b.index) ∧
      ∀ b ∈ l.blocks, b.id ≠ 0 := by
  simp only [decodeSubChunk] at h
  by_cases hg : p.length - 1 ≤ off
  · rw [if_pos hg] at h
    exact absurd h (by simp)
  · rw [if_neg hg] at h
    rw [Except.ok.injEq, Prod.mk.injEq] at h
    obtain ⟨hsc, -⟩ := h
    subst hsc
    exact readLayers_layers m p (readInt8 p (off + 1)).toNat 0 (off + 2)

/-- Witness for C7: decoding the subchunk `[1, 1, 7, 5, 0]` (version 1,
one layer, block ids 7 and 5 then a guarded-off trailing byte) yields
one layer with two blocks at indices 0 and 1; the invariants hold for
it. -/
theorem decodeSubChunk_layer_invariants_witness :
    (⟨0, [⟨0, 7, "unknown_block_7", 0, 0, 0⟩, ⟨1, 5, "unknown_block_5", 1, 0, 0⟩]⟩ :
        Layer).blocks ≠ [] ∧
    (⟨0, [⟨0, 7, "unknown_block_7", 0, 0, 0⟩, ⟨1, 5, "unknown_block_5", 1, 0, 0⟩]⟩ :
        Layer).blocks.Pairwise (fun a b => a.index < b.index) ∧
    ∀ b ∈ (⟨0, [⟨0, 7, "unknown_block_7", 0, 0, 0⟩, ⟨1, 5, "unknown_block_5", 1, 0, 0⟩]⟩ :
        Layer).blocks, b.id ≠ 0 :=
  decodeSubChunk_layer_invariants (fun _ => none) [1, 1, 7, 5, 0] 0 0
    ⟨0, 1, [⟨0, [⟨0, 7, "unknown_block_7", 0, 0, 0⟩, ⟨1, 5, "unknown_block_5", 1, 0, 0⟩]⟩]⟩ 4
    rfl
    ⟨0, [⟨0, 7, "unknown_block_7", 0, 0, 0⟩, ⟨1, 5, "unknown_block_5", 1, 0, 0⟩]⟩
    (by simp)

/-- A successful `decodeChunk` call returns a chunk carrying the given
coordinates and a state whose only change is the overwritten cache entry
at those coordinates. -/
theorem decodeChunk_ok_inv (st : DecoderState) (p : List Nat) (cx cz : Int) (c : Chunk)
    (st2 : DecoderState) (h : decodeChunk st (some p) cx cz = (.ok c, st2)) :
    c.x = cx ∧ c.z = cz ∧ st2 = cacheChunk st c := by
  simp only [decodeChunk] at h
  by_cases hlen : p.length < 2
  · rw [if_pos hlen] at h
    simp at h
  · rw [if_neg hlen] at h
    cases heq : decodeSubChunks st.blockMappings p 0 2 (readInt8 p 0).toNat with
    | error e =>
      simp only [heq] at h
      simp at h
    | ok pr =>
      obtain ⟨scs, off2⟩ := pr
      simp only [heq] at h
      rw [Prod.mk.injEq, Except.ok.injEq] at h
      obtain ⟨hc, hst⟩ := h
      subst hc
      exact ⟨rfl, rfl, hst.symm⟩

/-- Claim C8: after two successful decodes for the same coordinates with
different payloads, the cache entry at those coordinates holds exactly
the chunk produced by the second call (overwrite, not merge), and a
subsequent lookup returns that second chunk. -/
theorem decodeChunk_cache_overwrite (st : DecoderState) (p1 p2 : List Nat) (cx cz : Int)
    (c1 c2 : Chunk) (st1 st2 : DecoderState) (hne : p1 ≠ p2)
    (h1 : decodeChunk st (some p1) cx cz = (.ok c1, st1))
    (h2 : decodeChunk st1 (some p2) cx cz = (.ok c2, st2)) :
    st2.chunkCache (cx, cz) = some c2 ∧ getLastDecodedChunk st2 cx cz = some c2 := by
  obtain ⟨hx, hz, hst⟩ := decodeChunk_ok_inv st1 p2 cx cz c2 st2 h2
  subst hst
  have key : (cacheChunk st1 c2).chunkCache (cx, cz) = some c2 := by
    simp [cacheChunk, hx, hz]
  exact ⟨key, key⟩

/-- Witness for C8: decoding `[0, 8]` (no subchunks) then `[1, 8, 1, 0]`
(one empty subchunk) at coordinates `(0, 0)` leaves the second chunk in
the cache. -/
theorem decodeChunk_cache_overwrite_witness :
    (cacheChunk (cacheChunk initState ⟨0, 0, []⟩) ⟨0, 0, [⟨0, 1, []⟩]⟩).chunkCache (0, 0) =
      some ⟨0, 0, [⟨0, 1, []⟩]⟩ ∧
    getLastDecodedChunk (cacheChunk (cacheChunk initState ⟨0, 0, []⟩) ⟨0, 0, [⟨0, 1, []⟩]⟩) 0 0 =
      some ⟨0, 0, [⟨0, 1, []⟩]⟩ :=
  decodeChunk_cache_overwrite initState [0, 8] [1, 8, 1, 0] 0 0
    ⟨0, 0, []⟩ ⟨0, 0, [⟨0, 1, []⟩]⟩
    (cacheChunk initState ⟨0, 0, []⟩)
    (cacheChunk (cacheChunk initState ⟨0, 0, []⟩) ⟨0, 0, [⟨0, 1, []⟩]⟩)
    (by decide) rfl rfl

/-- The block loop never moves the cursor backwards. -/
theorem readLayerBlocks_le (m : Nat → Option String) (p : List Nat) :
    ∀ fuel i off, off ≤ (readLayerBlocks m p i off fuel).2 := by
  intro fuel
  induction fuel with
  | zero => intro i off; simp [readLayerBlocks]
  | succ fuel ih =>
    intro i off
    by_cases hoff : off < p.length - 1
    · simp only [readLayerBlocks, if_pos hoff]
      by_cases hbid : readUInt8 p off ≠ 0
      · rw [if_pos hbid]
        exact Nat.le_trans (Nat.le_succ off) (ih (i + 1) (off + 1))
      · rw [if_neg hbid]
        exact Nat.le_trans (Nat.le_succ off) (ih (i + 1) (off + 1))
    · simp [readLayerBlocks, if_neg hoff]

/-- The layer loop never moves the cursor backwards. -/
theorem readLayers_le (m : Nat → Option String) (p : List Nat) :
    ∀ fuel layer off, off ≤ (readLayers m p layer off fuel).2 := by
  intro fuel
  induction fuel with
  | zero => intro layer off; simp [readLayers]
  | succ fuel ih =>
    intro layer off
    by_cases hoff : off < p.length - 1
    · simp only [readLayers, if_pos hoff]
      have h1 := readLayerBlocks_le m p 4096 0 off
      have h2 := ih (layer + 1) (readLayerBlocks m p 0 off 4096).2
      by_cases hne : (readLayerBlocks m p 0 off 4096).1.length > 0
      · rw [if_pos hne]
        exact Nat.le_trans h1 h2
      · rw [if_neg hne]
        exact Nat.le_trans h1 h2
    · simp [readLayers, if_neg hoff]

/-- A successful `decodeSubChunk` advances the cursor at least past its
2-byte header. -/
theorem decodeSubChunk_le (m : Nat → Option String) (p : List Nat) (off y : Nat)
    (sc : SubChunk) (off2 : Nat) (h : decodeSubChunk m p off y = .ok (sc, off2)) :
    off + 2 ≤ off2 := by
  simp only [decodeSubChunk] at h
  by_cases hg : p.length - 1 ≤ off
  · rw [if_pos hg] at h
    exact absurd h (by simp)
  · rw [if_neg hg] at h
    rw [Except.ok.injEq, Prod.mk.injEq] at h
    obtain ⟨-, hoff⟩ := h
    exact hoff ▸ readLayers_le m p (readInt8 p (off + 1)).toNat 0 (off + 2)

/-- The block loop reads only bytes at offsets at least 2 when started
there, so it computes the same result on two buffers of equal length
that agree on every byte at offset at least 2. -/
theorem readLayerBlocks_congr (m : Nat → Option String) (p1 p2 : List Nat)
    (hlen : p1.length = p2.length) (hb : ∀ j, 2 ≤ j → p1.getD j 0 = p2.getD j 0) :
    ∀ fuel i off, 2 ≤ off →
      readLayerBlocks m p1 i off fuel = readLayerBlocks m p2 i off fuel := by
  intro fuel
  induction fuel with
  | zero => intros; rfl
  | succ fuel ih =>
    intro i off hoff2
    have hread : readUInt8 p1 off = readUInt8 p2 off := by
      simp only [readUInt8, hb off hoff2]
    simp only [readLayerBlocks, hlen, hread, ih (i + 1) (off + 1) (by omega)]

/-- The layer loop likewise only depends on the length and the bytes at
offsets at least 2. -/
theorem readLayers_congr (m : Nat → Option String) (p1 p2 : List Nat)
    (hlen : p1.length = p2.length) (hb : ∀ j, 2 ≤ j → p1.getD j 0 = p2.getD j 0) :
    ∀ fuel layer off, 2 ≤ off →
      readLayers m p1 layer off fuel = readLayers m p2 layer off fuel := by
  intro fuel
  induction fuel with
  | zero => intros; rfl
  | succ fuel ih =>
    intro layer off hoff2
    have hrb := readLayerBlocks_congr m p1 p2 hlen hb 4096 0 off hoff2
    have hrec := ih (layer + 1) (readLayerBlocks m p2 0 off 4096).2
      (Nat.le_trans hoff2 (readLayerBlocks_le m p2 4096 0 off))
    simp only [readLayers, hlen, hrb, hrec]

/-- `decodeSubChunk` at an offset at least 2 only depends on the length
and the bytes at offsets at least 2. -/
theorem decodeSubChunk_congr (m : Nat → Option String) (p1 p2 : List Nat)
    (hlen : p1.length = p2.length) (hb : ∀ j, 2 ≤ j → p1.getD j 0 = p2.getD j 0)
    (off y : Nat) (hoff2 : 2 ≤ off) :
    decodeSubChunk m p1 off y = decodeSubChunk m p2 off y := by
  have h1 : readInt8 p1 off = readInt8 p2 off := by
    simp only [readInt8, hb off hoff2]
  have h2 : readInt8 p1 (off + 1) = readInt8 p2 (off + 1) := by
    simp only [readInt8, hb (off + 1) (by omega)]
  have h3 := readLayers_congr m p1 p2 hlen hb (readInt8 p2 (off + 1)).toNat 0 (off + 2)
    (by omega)
  simp only [decodeSubChunk, hlen, h1, h2, h3]

/-- The subchunk loop from an offset at least 2 only depends on the
length and the bytes at offsets at least 2 — in particular not on the
byte at offset 1. -/
theorem decodeSubChunks_congr (m : Nat → Option String) (p1 p2 : List Nat)
    (hlen : p1.length = p2.length) (hb : ∀ j, 2 ≤ j → p1.getD j 0 = p2.getD j 0) :
    ∀ fuel y off, 2 ≤ off →
      decodeSubChunks m p1 y off fuel = decodeSubChunks m p2 y off fuel := by
  intro fuel
  induction fuel with
  | zero => intros; rfl
  | succ fuel ih =>
    intro y off hoff2
    simp only [decodeSubChunks, hlen, decodeSubChunk_congr m p1 p2 hlen hb off y hoff2]
    by_cases hoff : off < p2.length - 1
    · rw [if_pos hoff, if_pos hoff]
      cases heq : decodeSubChunk m p2 off y with
      | error e => rfl
      | ok pr =>
        obtain ⟨sc, off2⟩ := pr
        have hge : 2 ≤ off2 := by
          have := decodeSubChunk_le m p2 off y sc off2 heq
          omega
        dsimp only
        rw [ih (y + 1) off2 hge]
    · rw [if_neg hoff, if_neg hoff]

/-- Claim C9: two payloads of equal length that differ only in the byte
at offset 1 (the `storageVersion` byte) decode — from the same state,
so with the same mapping table — to equal results and equal final
states: the storage-version byte never influences the decoded chunk or
the cache. -/
theorem decodeChunk_storageVersion_independent (st : DecoderState) (p1 p2 : List Nat)
    (cx cz : Int) (hlen : p1.length = p2.length) (hlen2 : 2 ≤ p1.length)
    (hb : ∀ i, i ≠ 1 → p1.getD i 0 = p2.getD i 0) :
    decodeChunk st (some p1) cx cz = decodeChunk st (some p2) cx cz := by
  have hb2 : ∀ j, 2 ≤ j → p1.getD j 0 = p2.getD j 0 := fun j hj => hb j (by omega)
  have h0 : readInt8 p1 0 = readInt8 p2 0 := by
    simp only [readInt8, hb 0 (by norm_num)]
  have hsub := decodeSubChunks_congr st.blockMappings p1 p2 hlen hb2
    (readInt8 p2 0).toNat 0 2 (by norm_num)
  simp only [decodeChunk, hlen, h0, hsub]

/-- Witness for C9: `[0, 8]` and `[0, 9]` differ only in the
storage-version byte and decode identically. -/
theorem decodeChunk_storageVersion_independent_witness :
    decodeChunk initState (some [0, 8]) 0 0 = decodeChunk initState (some [0, 9]) 0 0 :=
  decodeChunk_storageVersion_independent initState [0, 8] [0, 9] 0 0 rfl (by norm_num)
    (by
      intro i hi
      match i with
      | 0 => rfl
      | 1 => exact absurd rfl hi
      | n + 2 => simp [List.getD])

/-- Every block accumulated by the block loop has linear index below
`i + (payload.length - 1 - off)`: one readable byte (strictly below
`length - 1`) is consumed per index. -/
theorem readLayerBlocks_index_lt (m : Nat → Option String) (p : List Nat) :
    ∀ fuel i off, ∀ b ∈ (readLayerBlocks m p i off fuel).1,
      b.index < (i : Int) + ((p.length : Int) - 1 - off) := by
  intro fuel
  induction fuel with
  | zero => intro i off; simp [readLayerBlocks]
  | succ fuel ih =>
    intro i off
    by_cases hoff : off < p.length - 1
    · by_cases hbid : readUInt8 p off = 0
      · simp only [readLayerBlocks, if_pos hoff, if_neg (not_not_intro hbid)]
        intro b hb
        have := ih (i + 1) (off + 1) b hb
        push_cast at this ⊢
        omega
      · simp only [readLayerBlocks, if_pos hoff, if_pos hbid]
        intro b hb
        rcases List.mem_cons.mp hb with rfl | hb
        · simp only [createBlockData]
          omega
        · have := ih (i + 1) (off + 1) b hb
          push_cast at this ⊢
          omega
    · simp [readLayerBlocks, if_neg hoff]

/-- Every block of every layer emitted by the layer loop has linear
index below `payload.length - 1 - off`. -/
theorem readLayers_index_lt (m : Nat → Option String) (p : List Nat) :
    ∀ fuel layer off, ∀ l ∈ (readLayers m p layer off fuel).1, ∀ b ∈ l.blocks,
      b.index < (p.length : Int) - 1 - off := by
  intro fuel
  induction fuel with
  | zero => intro layer off; simp [readLayers]
  | succ fuel ih =>
    intro layer off
    by_cases hoff : off < p.length - 1
    · simp only [readLayers, if_pos hoff]
      have hle := readLayerBlocks_le m p 4096 0 off
      by_cases hne : (readLayerBlocks m p 0 off 4096).1.length > 0
      · rw [if_pos hne]
        intro l hl b hb
        rcases List.mem_cons.mp hl with rfl | hl
        · have := readLayerBlocks_index_lt m p 4096 0 off b hb
          push_cast at this ⊢
          omega
        · have := ih (layer + 1) (readLayerBlocks m p 0 off 4096).2 l hl b hb
          push_cast at this ⊢
          omega
      · rw [if_neg hne]
        intro l hl b hb
        have := ih (layer + 1) (readLayerBlocks m p 0 off 4096).2 l hl b hb
        push_cast at this ⊢
        omega
    · simp [readLayers, if_neg hoff]

/-- Every block of every subchunk produced by the subchunk loop has
linear index below `payload.length - 1 - off - 2` (the 2 accounts for
the subchunk header). -/
theorem decodeSubChunks_index_lt (m : Nat → Option String) (p : List Nat) :
    ∀ fuel y off scs off2, decodeSubChunks m p y off fuel = .ok (scs, off2) →
      ∀ sc ∈ scs, ∀ l ∈ sc.layers, ∀ b ∈ l.blocks,
        b.index < (p.length : Int) - 1 - off - 2 := by
  intro fuel
  induction fuel with
  | zero =>
    intro y off scs off2 h
    simp only [decodeSubChunks] at h
    rw [Except.ok.injEq, Prod.mk.injEq] at h
    obtain ⟨hscs, -⟩ := h
    subst hscs
    simp
  | succ fuel ih =>
    intro y off scs off2 h
    simp only [decodeSubChunks] at h
    by_cases hoff : off < p.length - 1
    · rw [if_pos hoff] at h
      cases heq : decodeSubChunk m p off y with
      | error e =>
        rw [heq] at h
        simp at h
      | ok pr =>
        obtain ⟨sc, off3⟩ := pr
        rw [heq] at h
        dsimp only at h
        cases heq2 : decodeSubChunks m p (y + 1) off3 fuel with
        | error e =>
          rw [heq2] at h
          simp at h
        | ok pr2 =>
          obtain ⟨rest, off4⟩ := pr2
          rw [heq2] at h
          simp only [Except.ok.injEq, Prod.mk.injEq] at h
          obtain ⟨hscs, -⟩ := h
          subst hscs
          intro sc1 hsc1
          rcases List.mem_cons.mp hsc1 with rfl | hsc1
          · -- the head subchunk: its layers start right after the header
            have hg : ¬ p.length - 1 ≤ off := by omega
            simp only [decodeSubChunk, if_neg hg] at heq
            rw [Except.ok.injEq, Prod.mk.injEq] at heq
            obtain ⟨hsc, -⟩ := heq
            subst hsc
            intro l hl b hb
            have := readLayers_index_lt m p (readInt8 p (off + 1)).toNat 0 (off + 2) l hl b hb
            push_cast at this ⊢
            omega
          · intro l hl b hb
            have hbound := ih (y + 1) off3 rest off4 heq2 sc1 hsc1 l hl b hb
            have hge := decodeSubChunk_le m p off y sc off3 heq
            push_cast at hbound ⊢
            omega
    · rw [if_neg hoff] at h
      rw [Except.ok.injEq, Prod.mk.injEq] at h
      obtain ⟨hscs, -⟩ := h
      subst hscs
      simp

/-- Claim C10: block-id bytes are read only from offsets strictly below
`payload.length - 1` (the loop guards in `decodeSubChunk` enforce this,
so no read goes past the buffer end and the final byte is never
consumed as a block id); consequently, for a payload of exactly
`2 + 2 + 4096` bytes whose last byte is non-zero, the decoded chunk
contains no block with linear index 4095. -/
theorem decodeChunk_final_byte_not_blockId (st : DecoderState) (p : List Nat)
    (cx cz : Int) (c : Chunk) (st2 : DecoderState) (hlen : p.length = 4100)
    (hlast : p.getD 4099 0 ≠ 0) (h : decodeChunk st (some p) cx cz = (.ok c, st2)) :
    ∀ sc ∈ c.subChunks, ∀ l ∈ sc.layers, ∀ b ∈ l.blocks, b.index ≠ (4095 : Int) := by
  simp only [decodeChunk] at h
  rw [if_neg (by omega)] at h
  cases heq : decodeSubChunks st.blockMappings p 0 2 (readInt8 p 0).toNat with
  | error e =>
    simp only [heq] at h
    simp at h
  | ok pr =>
    obtain ⟨scs, off2⟩ := pr
    simp only [heq] at h
    rw [Prod.mk.injEq, Except.ok.injEq] at h
    obtain ⟨hc, -⟩ := h
    subst hc
    intro sc hsc l hl b hb
    have := decodeSubChunks_index_lt st.blockMappings p (readInt8 p 0).toNat 0 2
      scs off2 heq sc hsc l hl b hb
    rw [hlen] at this
    push_cast at this
    omega

/-- The length of the concrete 4100-byte example payload's prefix. -/
theorem payload4100_front_length :
    ([1, 0, 1, 0] ++ List.replicate 4095 0 : List Nat).length = 4099 := by
  simp only [List.length_append, List.length_replicate, List.length_cons, List.length_nil]

/-- The length of the concrete 4100-byte example payload. -/
theorem payload4100_length :
    ([1, 0, 1, 0] ++ List.replicate 4095 0 ++ [3] : List Nat).length = 4100 := by
  simp only [List.length_append, List.length_replicate, List.length_cons, List.length_nil]

/-- The last byte of the concrete 4100-byte example payload is 3. -/
theorem payload4100_last :
    ([1, 0, 1, 0] ++ List.replicate 4095 0 ++ [3] : List Nat).getD 4099 0 = 3 := by
  rw [List.getD_eq_getElem?_getD, List.getElem?_append_right payload4100_front_length.le,
    payload4100_front_length]
  norm_num

/-- Evaluation of `decodeChunk` on any 4100-byte payload whose header
declares one subchunk with version 1 and zero layers. -/
theorem decodeChunk_payload4100_eval (p : List Nat) (hlen : p.length = 4100)
    (h0 : readInt8 p 0 = 1) (h2 : readInt8 p 2 = 1) (h3 : readInt8 p 3 = 0) :
    decodeChunk initState (some p) 0 0 =
      (.ok ⟨0, 0, [⟨0, 1, []⟩]⟩, cacheChunk initState ⟨0, 0, [⟨0, 1, []⟩]⟩) := by
  simp only [decodeChunk]
  rw [if_neg (by rw [hlen]; norm_num)]
  rw [h0]
  simp only [decodeSubChunks, Int.toNat_one]
  rw [if_pos (by rw [hlen]; norm_num)]
  simp only [decodeSubChunk]
  rw [if_neg (by rw [hlen]; norm_num)]
  rw [h2, h3]
  simp only [Int.toNat_zero, readLayers, decodeSubChunks]
  norm_num

/-- Witness for C10: a 4100-byte payload (one subchunk, zero layers,
padding, final byte 3) decodes successfully and its (empty) block
content trivially avoids linear index 4095. -/
theorem decodeChunk_final_byte_not_blockId_witness :
    ([1, 0, 1, 0] ++ List.replicate 4095 0 ++ [3] : List Nat).getD 4099 0 = 3 ∧
    (∀ sc ∈ (⟨0, 0, [⟨0, 1, []⟩]⟩ : Chunk).subChunks, ∀ l ∈ sc.layers, ∀ b ∈ l.blocks,
      b.index ≠ (4095 : Int)) :=
  ⟨payload4100_last,
    decodeChunk_final_byte_not_blockId initState
      ([1, 0, 1, 0] ++ List.replicate 4095 0 ++ [3]) 0 0
      ⟨0, 0, [⟨0, 1, []⟩]⟩ (cacheChunk initState ⟨0, 0, [⟨0, 1, []⟩]⟩)
      payload4100_length (by rw [payload4100_last]; norm_num)
      (decodeChunk_payload4100_eval _ payload4100_length rfl rfl rfl)⟩

end ChunkDecoder
